import Mathlib

/-!
Verification development for the FOAM core runtime (class system,
context registry, pub/sub dispatcher, and Slot binding).

Each definition is a shallow embedding of the corresponding JavaScript
function from the repository sources; the source file and function are
named in the doc comment of each definition.  JavaScript objects used as
string-keyed maps are embedded as insertion-ordered association lists
(JS for-in enumerates own string keys in insertion order, then prototype
keys that are not shadowed).  A failed console.assert is embedded as a
raised error, matching the repository's test suite, which expects these
asserts to throw.
-/

namespace Foam

/-- Association-list read: first entry with the given key, like a JS
property read on a plain object used as a map. -/
def alGet {κ β : Type} [BEq κ] (l : List (κ × β)) (k : κ) : Option β :=
  (l.find? (fun p => p.1 == k)).map Prod.snd

/-- Does the list hold an entry for the key (JS hasOwnProperty)? -/
def alHas {κ β : Type} [BEq κ] (l : List (κ × β)) (k : κ) : Bool :=
  l.any (fun p => p.1 == k)

/-- Association-list write, like a JS property assignment: an existing
key keeps its enumeration position and gets the new value; a new key is
appended at the end. -/
def alSet {κ β : Type} [BEq κ] (l : List (κ × β)) (k : κ) (v : β) : List (κ × β) :=
  if alHas l k then l.map (fun p => if p.1 == k then (k, v) else p)
  else l ++ [(k, v)]

/-! ## Axiom protocol on classes (src/core/AbstractClass.js)

An axiom is embedded by the data AbstractClass.installAxiom consults:
its name and whether it offers the two installer hooks.  The installers
themselves mutate the class's prototype and class object, which are
outside the cache state these claims are about. -/

/-- An axiom as consumed by AbstractClass: a name plus the presence of
the two optional installer hooks (installInClass / installInProto). -/
structure Axm where
  name : String
  hasInstallInClass : Bool
  hasInstallInProto : Bool
deriving Repr, DecidableEq

/-- The per-class mutable state from AbstractClass.js and Boot.js
buildClass: the class's own axiomMap_ entries (the map delegates to the
parent class's map by prototype), and the two caches stored in
private_: the axiom cache used by getAxiomsByClass/getAxioms (keyed by
capability-class id, values are references into a heap of allocated
arrays) and the isSubClass memo. -/
structure ClassSt where
  super : Option String
  ownAxms : List (String × Axm)
  axmCache : List (String × Nat)
  isSubClassCache : List (String × Bool)
deriving Repr, DecidableEq

/-- The world of built classes, keyed by class id, together with a heap
of allocated arrays so that the pointer identity of the arrays returned
by getAxiomsByClass is observable (fresh is the next unused array
reference). -/
structure ClassHeap where
  classes : List (String × ClassSt)
  arrays : List (Nat × List Axm)
  fresh : Nat
deriving Repr, DecidableEq

/-- Errors raised by the class system (via console.assert). -/
inductive ClassErr
  | InvalidAxm
  | UnknownClass
deriving Repr, DecidableEq

/-- The full axiomMap_ contents of a class in JS for-in order: own
entries in insertion order, then inherited entries not shadowed by an
own entry, recursively up the parent chain (axiomMap_ is created with
Object.create(parent.axiomMap_) in Boot.js buildClass).  fuel bounds
the parent-chain walk. -/
def fullEntriesF (h : ClassHeap) : Nat → String → List (String × Axm)
  | 0, _ => []
  | fuel + 1, cid =>
    match alGet h.classes cid with
    | none => []
    | some c =>
      let inherited :=
        match c.super with
        | none => []
        | some p => fullEntriesF h fuel p
      c.ownAxms ++ inherited.filter (fun pa => !alHas c.ownAxms pa.1)

/-- AbstractClass.installAxiom: assert the axiom offers an installer,
write it into the class's own axiomMap_ by name, and reset
private_.axiomCache to a fresh empty map.  The isSubClass memo is not
touched.  The axiom's installers then run against the class and
prototype, which are outside this state. -/
def installAxm (h : ClassHeap) (cid : String) (a : Axm) : Except ClassErr ClassHeap :=
  match alGet h.classes cid with
  | none => Except.error ClassErr.UnknownClass
  | some c =>
    if a.hasInstallInClass || a.hasInstallInProto then
      Except.ok { h with
        classes := alSet h.classes cid
          { c with ownAxms := alSet c.ownAxms a.name a, axmCache := [] } }
    else Except.error ClassErr.InvalidAxm

/-- AbstractClass.getAxiomsByClass: return the cached array reference
for the capability id if present; otherwise filter the full inherited
axiomMap_ by the capability's isInstance predicate, allocate the result
as a fresh array and cache its reference under the capability id.
Returns none when the class id is unknown. -/
def getAxmsByClass (h : ClassHeap) (fuel : Nat) (cid capId : String)
    (isInst : Axm → Bool) : Option (Nat × ClassHeap) :=
  match alGet h.classes cid with
  | none => none
  | some c =>
    match alGet c.axmCache capId with
    | some r => some (r, h)
    | none =>
      let as := ((fullEntriesF h fuel cid).map Prod.snd).filter isInst
      let r := h.fresh
      some (r,
        { classes := alSet h.classes cid { c with axmCache := alSet c.axmCache capId r },
          arrays := h.arrays ++ [(r, as)],
          fresh := h.fresh + 1 })

/-- AbstractClass.isSubClass, on the memo of the class selfCid, applied
to a candidate class given by its id chain (the candidate followed by
its prototype-chain ancestors): each level's result is memoized in
selfCid's isSubClassCache keyed by that level's class id.  Returns the
boolean and the updated memo. -/
def isSubClassRun (selfCid : String) :
    List String → List (String × Bool) → Bool × List (String × Bool)
  | [], cache => (false, cache)
  | cid :: rest, cache =>
    match alGet cache cid with
    | some b => (b, cache)
    | none =>
      if cid == selfCid then (true, alSet cache cid true)
      else
        let r := isSubClassRun selfCid rest cache
        (r.1, alSet r.2 cid r.1)

/-! ## Context registry (the context-support source file)

A context is a frozen JS object holding a non-enumerable __cache__
property; the cache of a sub-context is Object.create of the parent's
cache, so lookups delegate up the chain while registrations create own
properties on the current cache only.  Cache objects live in a heap so
that several contexts can share ancestors; a context itself is
immutable after creation (it is frozen), so it is embedded by value. -/

/-- A class as seen by the context registry: register reads its id,
package and name fields. -/
structure Cls where
  id : String
  pkg : String
  name : String
deriving Repr, DecidableEq

/-- A JS cache object: own bindings, the prototype link to the parent
context's cache, and whether Object.freeze was applied to it (the code
never freezes a cache; a sloppy-mode write to a frozen object is a
silent no-op). -/
structure CacheObj where
  own : List (String × Cls)
  parent : Option Nat
  frozen : Bool
deriving Repr, DecidableEq

/-- A context object: the reference to its __cache__, the bindings
copied from opt_args by createSubContext, the optional NAME, and
whether Object.freeze was applied to it. -/
structure CtxObj where
  cacheRef : Nat
  props : List (String × String)
  nameField : Option String
  frozen : Bool
deriving Repr, DecidableEq

/-- The heap of cache objects, keyed by reference; fresh is the next
unused reference. -/
structure CacheHeap where
  caches : List (Nat × CacheObj)
  fresh : Nat
deriving Repr, DecidableEq

/-- Errors raised by the context registry (via console.assert). -/
inductive CtxErr
  | UnresolvedReference
  | DuplicateRegistration
deriving Repr, DecidableEq

/-- A JS property read on a cache object: the own binding if present,
else the parent chain's, like this.__cache__[id].  fuel bounds the
prototype-chain walk. -/
def cacheGet (h : CacheHeap) : Nat → String → Nat → Option Cls
  | _, _, 0 => none
  | ref, id, fuel + 1 =>
    match alGet h.caches ref with
    | none => none
    | some co =>
      match alGet co.own id with
      | some c => some c
      | none =>
        match co.parent with
        | none => none
        | some p => cacheGet h p id fuel

/-- lookup(id, opt_suppress) from the context source: read the id from
this context's cache (delegating up the chain); when the result is
missing and opt_suppress is not set, console.assert fails
(UnresolvedReference); with opt_suppress set the empty result is
returned. -/
def ctxLookup (h : CacheHeap) (ctx : CtxObj) (id : String) (suppress : Bool) :
    Except CtxErr (Option Cls) :=
  match cacheGet h ctx.cacheRef id h.caches.length with
  | some c => Except.ok (some c)
  | none =>
    if suppress then Except.ok none
    else Except.error CtxErr.UnresolvedReference

/-- doRegister(cache, name) from register: console.assert the name is
not an own key of the cache (DuplicateRegistration), then assign it.
Assignment to a frozen object is a sloppy-mode silent no-op (caches are
never frozen by the code). -/
def doRegister (co : CacheObj) (cls : Cls) (name : String) :
    CacheObj × Option CtxErr :=
  if alHas co.own name then (co, some CtxErr.DuplicateRegistration)
  else if co.frozen then (co, none)
  else ({ co with own := co.own ++ [(name, cls)] }, none)

/-- register(cls) from the context source: doRegister the class under
cls.id on this context's own cache; when cls.package is the core
package, additionally doRegister it under cls.name.  The first
insertion persists even when the second check fails (the JS assert
throws after the first assignment has happened). -/
def register (h : CacheHeap) (ctx : CtxObj) (cls : Cls) :
    CacheHeap × Option CtxErr :=
  match alGet h.caches ctx.cacheRef with
  | none => (h, some CtxErr.UnresolvedReference)
  | some co =>
    match doRegister co cls cls.id with
    | (_, some e) => (h, some e)
    | (co1, none) =>
      if cls.pkg == "foam.core" then
        match doRegister co1 cls cls.name with
        | (co2, e) => ({ h with caches := alSet h.caches ctx.cacheRef co2 }, e)
      else ({ h with caches := alSet h.caches ctx.cacheRef co1 }, none)

/-- createSubContext(opt_args, opt_name) from the context source:
allocate a fresh cache whose prototype is this context's cache, build
the sub-context object carrying the opt_args bindings and optional
NAME, and Object.freeze it (the freeze is shallow: the cache object
stays unfrozen). -/
def createSubContext (h : CacheHeap) (ctx : CtxObj)
    (args : List (String × String)) (name : Option String) :
    CacheHeap × CtxObj :=
  let r := h.fresh
  ({ caches := h.caches ++ [(r, { own := [], parent := some ctx.cacheRef, frozen := false })],
     fresh := r + 1 },
   { cacheRef := r, props := args, nameField := name, frozen := true })

/-- The root context: created at startup with an empty cache and no
parent, then frozen (__context__ at the bottom of the context source). -/
def rootCtx : CtxObj :=
  { cacheRef := 0, props := [], nameField := none, frozen := true }

/-- The heap at startup: just the root context's (unfrozen) cache. -/
def rootHeap : CacheHeap :=
  { caches := [(0, { own := [], parent := none, frozen := false })], fresh := 1 }

/-- The foam.lookup shortcut: function(id) returning
foam.__context__.lookup(id).  It declares a single parameter, so the
suppress argument a caller passes is dropped and the root lookup always
runs with opt_suppress undefined. -/
def foamLookup (h : CacheHeap) (id : String) (_suppressIgnored : Bool) :
    Except CtxErr (Option Cls) :=
  ctxLookup h rootCtx id false

/-- The property-type resolution step of the bootstrap
AbstractClass.installModel: foam.lookup(a.class, true) with the
Property class as fallback for an empty result.  Because foam.lookup
drops the suppression flag, an unregistered id errors instead of
falling back. -/
def resolvePropertyType (h : CacheHeap) (clsField : String) (defaultProp : Cls) :
    Except CtxErr Cls :=
  match foamLookup h clsField true with
  | Except.error e => Except.error e
  | Except.ok (some c) => Except.ok c
  | Except.ok none => Except.ok defaultProp

/-- The own-bindings lists of the cache chain starting at a reference,
nearest first; used to specify lookup as a first-match search. -/
def chainOwns (h : CacheHeap) : Nat → Nat → List (List (String × Cls))
  | 0, _ => []
  | fuel + 1, ref =>
    match alGet h.caches ref with
    | none => []
    | some co =>
      co.own :: (match co.parent with
                 | none => []
                 | some p => chainOwns h fuel p)

/-! ## Pub/sub delivery (modelled from the spec)

The pub/sub engine (FObject.sub/pub and the per-topic subscription
list) is not among the repository sources here, only its tests are; the
delivery loop is therefore modelled from the spec: a per-topic list of
subscription nodes, newest first, where destruction marks a node
destroyed (idempotently) and one publish makes a single forward pass
over the list captured at publish time, skipping nodes that are marked
destroyed by the time they are reached, with the continuation fixed
before each callback runs. -/

/-- Modelled from the spec: a subscription node of one topic's list,
identified by id, with its destroyed flag (the intrusive-list
prev/next links are represented by the node's position in the list). -/
structure SubNode where
  id : Nat
  destroyed : Bool
deriving Repr, DecidableEq

/-- Modelled from the spec: destroy() of the subscription with the
given id — mark it destroyed; destroying an already-destroyed node
writes the same flag again. -/
def destroyNode (l : List SubNode) (i : Nat) : List SubNode :=
  l.map (fun n => if n.id == i then { n with destroyed := true } else n)

/-- Run a callback's destroy effects, one subscription id at a time. -/
def runDestroys (l : List SubNode) (ids : List Nat) : List SubNode :=
  ids.foldl destroyNode l

/-- Modelled from the spec: the publish delivery pass, as a single
forward traversal of the subscription list captured at publish time
(the continuation of each step is the remainder of the list, fixed
before the current callback runs).  dead accumulates the subscription
ids destroyed so far by invoked callbacks; a node is skipped exactly
when it is marked destroyed by the time it is reached (its own flag or
an earlier callback's destroy) and is invoked otherwise — cb gives, per
node id, the subscription ids that node's callback destroys.  Returns
the invoked ids in delivery order. -/
def deliverIds (cb : Nat → List Nat) : List SubNode → List Nat → List Nat
  | [], _ => []
  | n :: rest, dead =>
    if n.destroyed || n.id ∈ dead then deliverIds cb rest dead
    else n.id :: deliverIds cb rest (dead ++ cb n.id)

/-- Modelled from the spec: publish on one topic delivers over the
subscription list from its head (newest first); afterwards the list
holds the same nodes with the destroys of every invoked callback
applied. -/
def publish (cb : Nat → List Nat) (l : List SubNode) : List SubNode × List Nat :=
  let called := deliverIds cb l []
  (runDestroys l (called.map cb).flatten, called)

/-! ## Slot binding (Slot.js source, second half of the FObject file)

linkFrom and relateTo install listeners on the two slots'
propertyChange topics; a slot set stores the (possibly coerced) value
and synchronously fires the slot's listener only when the stored value
actually changed.  The mutual recursion between a listener and the set
it performs is embedded with explicit fuel: the result none means the
fuel ran out, some the JS call returned. -/

/-- Errors raised by Slot.relateTo. -/
inductive RelErr
  | DivergentRelation
deriving Repr, DecidableEq

/-- The state of two slots related by relateTo: the two values, the
shared feedback flag and the shared feedbackCounter of the relation's
closure. -/
structure RelSt (α : Type) where
  a : α
  b : α
  feedback : Bool
  counter : Nat
deriving Repr, DecidableEq

/-- Which step of the relateTo machinery runs next: the l1 or l2
listener, or a set on one of the slots with the given value. -/
inductive RelMode (α : Type)
  | fire1
  | fire2
  | setA (v : α)
  | setB (v : α)

/-- Slot.relateTo's l1/l2 listeners and the slot sets they perform,
from Slot.js.  l1: return if feedback; feedback := expectUnstable; when
not expectUnstable and feedbackCounter > 5 throw DivergentRelation;
feedbackCounter++; other.set(f(self.get())); feedback := false;
feedbackCounter--.  l2 is symmetric without the divergence check, using
fPrime.  A set stores the value and fires the slot's listener only when
the value changed. -/
def relStep {α : Type} [DecidableEq α] (f fp : α → α) (eu : Bool) :
    Nat → RelMode α → RelSt α → Option (Except RelErr (RelSt α))
  | 0, _, _ => none
  | fuel + 1, RelMode.fire1, st =>
    if st.feedback then some (Except.ok st)
    else
      let st1 := { st with feedback := eu }
      if !eu && decide (st1.counter > 5) then some (Except.error RelErr.DivergentRelation)
      else
        let st2 := { st1 with counter := st1.counter + 1 }
        match relStep f fp eu fuel (RelMode.setB (f st2.a)) st2 with
        | some (Except.ok st3) =>
          some (Except.ok { st3 with feedback := false, counter := st3.counter - 1 })
        | r => r
  | fuel + 1, RelMode.fire2, st =>
    if st.feedback then some (Except.ok st)
    else
      let st1 := { st with feedback := eu }
      let st2 := { st1 with counter := st1.counter + 1 }
      match relStep f fp eu fuel (RelMode.setA (fp st2.b)) st2 with
      | some (Except.ok st3) =>
        some (Except.ok { st3 with feedback := false, counter := st3.counter - 1 })
      | r => r
  | fuel + 1, RelMode.setA v, st =>
    if v = st.a then some (Except.ok st)
    else relStep f fp eu fuel RelMode.fire1 { st with a := v }
  | fuel + 1, RelMode.setB v, st =>
    if v = st.b then some (Except.ok st)
    else relStep f fp eu fuel RelMode.fire2 { st with b := v }

/-- The initial propagation relateTo performs after subscribing the two
listeners: the trailing l1() call in Slot.relateTo. -/
def relateToInit {α : Type} [DecidableEq α] (f fp : α → α) (eu : Bool)
    (fuel : Nat) (st : RelSt α) : Option (Except RelErr (RelSt α)) :=
  relStep f fp eu fuel RelMode.fire1 st

/-- A set on the first slot of an established relation (fires l1 when
the value changes). -/
def relSetA {α : Type} [DecidableEq α] (f fp : α → α) (eu : Bool)
    (fuel : Nat) (st : RelSt α) (v : α) : Option (Except RelErr (RelSt α)) :=
  relStep f fp eu fuel (RelMode.setA v) st

/-- A set on the second slot of an established relation (fires l2 when
the value changes). -/
def relSetB {α : Type} [DecidableEq α] (f fp : α → α) (eu : Bool)
    (fuel : Nat) (st : RelSt α) (v : α) : Option (Except RelErr (RelSt α)) :=
  relStep f fp eu fuel (RelMode.setB v) st

/-- A record of one slot-set call made while two linked slots converge;
used to count the corrective copy-backs linkFrom performs. -/
inductive LinkEv (α : Type)
  | set1 (v : α)
  | set2 (v : α)
deriving Repr, DecidableEq

/-- The state of two slots linked by linkFrom: the stored values, the
two independent feedback flags of the closure, and the trace of set
calls performed. -/
structure LinkSt (α : Type) where
  s1 : α
  s2 : α
  fb1 : Bool
  fb2 : Bool
  trace : List (LinkEv α)
deriving Repr, DecidableEq

/-- Which step of the linkFrom machinery runs next. -/
inductive LMode (α : Type)
  | l1
  | l2
  | set1 (v : α)
  | set2 (v : α)

/-- Slot.linkFrom's l1/l2 listeners and the slot sets, from Slot.js.
l1: return if feedback1; when the values differ: feedback1 := true;
s2.set(s1.get()); when they still differ s1.set(s2.get()); feedback1 :=
false.  l2 is the mirror image with feedback2.  A set coerces the value
through the slot's setter (c1 for slot 1, c2 for slot 2), records the
call, stores the result and fires that slot's listener only when the
stored value changed. -/
def linkStep {α : Type} [DecidableEq α] (c1 c2 : α → α) :
    Nat → LMode α → LinkSt α → Option (LinkSt α)
  | 0, _, _ => none
  | fuel + 1, LMode.l1, st =>
    if st.fb1 then some st
    else if st.s1 = st.s2 then some st
    else
      match linkStep c1 c2 fuel (LMode.set2 st.s1) { st with fb1 := true } with
      | none => none
      | some st' =>
        match (if st'.s1 = st'.s2 then some st'
               else linkStep c1 c2 fuel (LMode.set1 st'.s2) st') with
        | none => none
        | some st'' => some { st'' with fb1 := false }
  | fuel + 1, LMode.l2, st =>
    if st.fb2 then some st
    else if st.s1 = st.s2 then some st
    else
      match linkStep c1 c2 fuel (LMode.set1 st.s2) { st with fb2 := true } with
      | none => none
      | some st' =>
        match (if st'.s1 = st'.s2 then some st'
               else linkStep c1 c2 fuel (LMode.set2 st'.s1) st') with
        | none => none
        | some st'' => some { st'' with fb2 := false }
  | fuel + 1, LMode.set1 v, st =>
    let st0 := { st with trace := st.trace ++ [LinkEv.set1 v] }
    let nv := c1 v
    if nv = st0.s1 then some st0
    else linkStep c1 c2 fuel LMode.l1 { st0 with s1 := nv }
  | fuel + 1, LMode.set2 v, st =>
    let st0 := { st with trace := st.trace ++ [LinkEv.set2 v] }
    let nv := c2 v
    if nv = st0.s2 then some st0
    else linkStep c1 c2 fuel LMode.l2 { st0 with s2 := nv }

/-- The initial convergence pass linkFrom performs after subscribing
the listeners: the trailing l2() call in Slot.linkFrom (copy other into
this, then copy back if the two still disagree). -/
def linkFromInit {α : Type} [DecidableEq α] (c1 c2 : α → α)
    (fuel : Nat) (st : LinkSt α) : Option (LinkSt α) :=
  linkStep c1 c2 fuel LMode.l2 st

/-- A set on slot 1 of an established link. -/
def linkSet1 {α : Type} [DecidableEq α] (c1 c2 : α → α)
    (fuel : Nat) (st : LinkSt α) (v : α) : Option (LinkSt α) :=
  linkStep c1 c2 fuel (LMode.set1 v) st

/-- A set on slot 2 of an established link. -/
def linkSet2 {α : Type} [DecidableEq α] (c1 c2 : α → α)
    (fuel : Nat) (st : LinkSt α) (v : α) : Option (LinkSt α) :=
  linkStep c1 c2 fuel (LMode.set2 v) st

/-- The number of set calls the trace records against slot 2. -/
def countSet2 {α : Type} (tr : List (LinkEv α)) : Nat :=
  tr.countP (fun e => match e with | LinkEv.set2 _ => true | _ => false)

/-! ## Concrete worlds used by witnesses and counterexamples -/

/-- The concrete two-class world for the C1 counterexample: a parent P
(one own axiom, a populated axiomsByClass cache, and an isSubClass memo
populated by an isSubClass call on the chain C → P) and an already-built
subclass C. -/
def heapC1 : ClassHeap :=
  { classes :=
      [("P", { super := none, ownAxms := [("p1", ⟨"p1", true, false⟩)],
               axmCache := [("cap", 0)],
               isSubClassCache := (isSubClassRun "P" ["C", "P"] []).2 }),
       ("C", { super := some "P", ownAxms := [], axmCache := [("cap", 1)],
               isSubClassCache := [] })],
    arrays := [(0, [⟨"p1", true, false⟩]), (1, [⟨"p1", true, false⟩])],
    fresh := 2 }

/-- The concrete heap for the C7 witness: a root cache binding one
class and an (already-frozen) sub-context whose cache delegates to
it. -/
def heapC7 : CacheHeap :=
  { caches := [(0, { own := [("x.A", ⟨"x.A", "x", "A"⟩)], parent := none, frozen := false }),
               (1, { own := [], parent := some 0, frozen := false })],
    fresh := 2 }

/-- The sub-context of heapC7. -/
def subC7 : CtxObj :=
  { cacheRef := 1, props := [], nameField := none, frozen := true }

/-- The heap holding one registered core class X (registered under both
its id and, being a core-package class, its short name). -/
def heapC6 : CacheHeap := (register rootHeap rootCtx ⟨"foam.core.X", "foam.core", "X"⟩).1

/-! ## General lemmas about the association-list embedding -/

theorem alHas_false_alGet {κ β : Type} [BEq κ] (l : List (κ × β)) (k : κ)
    (h : alHas l k = false) : alGet l k = none := by
  induction l with
  | nil => rfl
  | cons p l ih =>
    simp only [alHas, List.any_cons, Bool.or_eq_false_iff] at h
    simp only [alGet, List.find?_cons, h.1]
    exact ih h.2

theorem alGet_append_left {κ β : Type} [BEq κ] (l1 l2 : List (κ × β)) (k : κ) (v : β)
    (h : alGet l1 k = some v) : alGet (l1 ++ l2) k = some v := by
  induction l1 with
  | nil => simp [alGet] at h
  | cons p l ih =>
    rw [List.cons_append]
    cases hp : p.1 == k with
    | true => simpa [alGet, List.find?_cons, hp] using by simpa [alGet, List.find?_cons, hp] using h
    | false =>
      have h2 : alGet l k = some v := by simpa [alGet, List.find?_cons, hp] using h
      simpa [alGet, List.find?_cons, hp] using ih h2

theorem alGet_append_right {κ β : Type} [BEq κ] (l1 l2 : List (κ × β)) (k : κ)
    (h : alGet l1 k = none) : alGet (l1 ++ l2) k = alGet l2 k := by
  induction l1 with
  | nil => rfl
  | cons p l ih =>
    rw [List.cons_append]
    cases hp : p.1 == k with
    | true => simp [alGet, List.find?_cons, hp] at h
    | false =>
      have h2 : alGet l k = none := by simpa [alGet, List.find?_cons, hp] using h
      simpa [alGet, List.find?_cons, hp] using ih h2

theorem alGet_alSet_self {κ β : Type} [BEq κ] [LawfulBEq κ] (l : List (κ × β)) (k : κ) (v : β) :
    alGet (alSet l k v) k = some v := by
  by_cases h : alHas l k = true
  · simp only [alSet, h, if_true]
    induction l with
    | nil => simp [alHas] at h
    | cons p l ih =>
      cases hp : p.1 == k with
      | true => simp [alGet, List.find?_cons, hp]
      | false =>
        have h2 : alHas l k = true := by simpa [alHas, hp] using h
        simpa [alGet, List.find?_cons, hp] using ih h2
  · unfold alSet
    rw [if_neg h]
    rw [alGet_append_right _ _ _ (alHas_false_alGet _ _ (by simpa using h))]
    simp [alGet]

theorem alGet_map_set_ne {κ β : Type} [BEq κ] [LawfulBEq κ] (l : List (κ × β)) (k k' : κ) (v : β)
    (hne : (k' == k) = false) :
    alGet (l.map (fun p => if p.1 == k then (k, v) else p)) k' = alGet l k' := by
  have hkk' : (k == k') = false := by
    cases hkk : k == k' with
    | true => exact absurd hne (by rw [eq_of_beq hkk]; simp)
    | false => rfl
  induction l with
  | nil => rfl
  | cons p l ih =>
    cases hp : p.1 == k with
    | true =>
      have hpk' : (p.1 == k') = false := by rw [eq_of_beq hp]; exact hkk'
      simpa [alGet, List.find?_cons, hp, hkk', hpk'] using ih
    | false =>
      cases hp' : p.1 == k' with
      | true => simp [alGet, List.find?_cons, hp, hp']
      | false => simpa [alGet, List.find?_cons, hp, hp'] using ih

theorem alGet_alSet_ne {κ β : Type} [BEq κ] [LawfulBEq κ] (l : List (κ × β)) (k k' : κ) (v : β)
    (hne : (k' == k) = false) : alGet (alSet l k v) k' = alGet l k' := by
  by_cases h : alHas l k = true
  · simp only [alSet, h, if_true]
    exact alGet_map_set_ne l k k' v hne
  · unfold alSet
    rw [if_neg h]
    cases hg : alGet l k' with
    | some c => exact alGet_append_left _ _ _ _ hg
    | none =>
      rw [alGet_append_right _ _ _ hg]
      have hkk' : (k == k') = false := by
        cases hkk : k == k' with
        | true => exact absurd hne (by rw [eq_of_beq hkk]; simp)
        | false => rfl
      simp [alGet, List.find?_cons, hkk']

/-- destroyNode leaves every list element's id in place. -/
theorem destroyNode_map_id (l : List SubNode) (i : Nat) :
    (destroyNode l i).map SubNode.id = l.map SubNode.id := by
  induction l with
  | nil => rfl
  | cons n l ihl =>
    show ((if n.id == i then { n with destroyed := true } else n) :: destroyNode l i).map SubNode.id
        = n.id :: l.map SubNode.id
    simp only [List.map_cons, ihl]
    by_cases hn : n.id == i <;> simp [hn]

/-- runDestroys leaves every list element's id in place. -/
theorem runDestroys_map_id (ids : List Nat) (l : List SubNode) :
    (runDestroys l ids).map SubNode.id = l.map SubNode.id := by
  induction ids generalizing l with
  | nil => rfl
  | cons i ids ih =>
    simp only [runDestroys, List.foldl_cons] at *
    rw [ih, destroyNode_map_id]

/-- runDestroys preserves the list length. -/
theorem runDestroys_length (ids : List Nat) (l : List SubNode) :
    (runDestroys l ids).length = l.length := by
  have := congrArg List.length (runDestroys_map_id ids l)
  simpa using this


/-- Keys all below a bound are never found at the bound (used for the
freshness of newly allocated array references). -/
theorem alGet_none_of_lt {β : Type} (l : List (Nat × β)) (n : Nat)
    (hl : ∀ p ∈ l, p.1 < n) : alGet l n = none := by
  induction l with
  | nil => rfl
  | cons p l ih =>
    have hp : (p.1 == n) = false := by
      have := hl p (by simp)
      simp [Nat.ne_of_lt this]
    simp only [alGet, List.find?_cons, hp]
    exact ih (fun q hq => hl q (by simp [hq]))

/-! ## Claim theorems: axiom installation and the class caches -/

/-- Claim C1 (amended): installing or re-installing an axiom via
installAxiom writes it into the class's own axiom map and empties only
that class's axiomsByClass cache; the class's isSubClassOf memo is left
unchanged (visible in the record below, which keeps isSubClassCache),
and every other already-built class — in particular every subclass —
keeps its own caches untouched. -/
theorem installAxm_cache_invalidation (h : ClassHeap) (cid : String) (a : Axm)
    (c : ClassSt) (hc : alGet h.classes cid = some c)
    (hi : (a.hasInstallInClass || a.hasInstallInProto) = true) :
    ∃ h', installAxm h cid a = Except.ok h'
      ∧ alGet h'.classes cid =
          some { c with ownAxms := alSet c.ownAxms a.name a, axmCache := [] }
      ∧ (∀ c', alGet h'.classes cid = some c' →
          c'.axmCache = [] ∧ c'.isSubClassCache = c.isSubClassCache)
      ∧ (∀ cid', (cid' == cid) = false → alGet h'.classes cid' = alGet h.classes cid')
      ∧ h'.arrays = h.arrays := by
  have hok : installAxm h cid a = Except.ok
      { h with classes :=
          alSet h.classes cid ({ c with ownAxms := alSet c.ownAxms a.name a, axmCache := [] }) } := by
    simp only [installAxm, hc, hi, if_true]
  refine ⟨_, hok, ?_, ?_, ?_, rfl⟩
  · exact alGet_alSet_self _ _ _
  · intro c' hc'
    rw [alGet_alSet_self] at hc'
    cases hc'
    exact ⟨rfl, rfl⟩
  · intro cid' hne
    exact alGet_alSet_ne _ _ _ _ hne

/-- Claim C1 counterexample: re-installing an axiom on the class P of
heapC1 empties P's axiomsByClass cache but leaves P's isSubClassOf memo
populated, refuting the claim that both caches on the class are emptied
by installAxiom. -/
theorem installAxm_keeps_isSubClass_memo_cex :
    (installAxm heapC1 "P" ⟨"m", true, false⟩).map
        (fun h' => (alGet h'.classes "P").map (fun c => (c.axmCache, c.isSubClassCache)))
      = Except.ok (some ([], [("P", true), ("C", true)]))
    ∧ ([("P", true), ("C", true)] : List (String × Bool)) ≠ [] :=
  ⟨rfl, by simp⟩

/-- Claim C1 witness: the amended theorem applied to the concrete world
heapC1. -/
theorem installAxm_cache_invalidation_w :
    ∃ h', installAxm heapC1 "P" ⟨"m", true, false⟩ = Except.ok h'
      ∧ alGet h'.classes "P" =
          some { super := none,
                 ownAxms := alSet [("p1", ⟨"p1", true, false⟩)] "m" ⟨"m", true, false⟩,
                 axmCache := [],
                 isSubClassCache := (isSubClassRun "P" ["C", "P"] []).2 }
      ∧ (∀ c', alGet h'.classes "P" = some c' →
          c'.axmCache = [] ∧ c'.isSubClassCache = (isSubClassRun "P" ["C", "P"] []).2)
      ∧ (∀ cid', (cid' == "P") = false → alGet h'.classes cid' = alGet heapC1.classes cid')
      ∧ h'.arrays = heapC1.arrays :=
  installAxm_cache_invalidation heapC1 "P" ⟨"m", true, false⟩ _ rfl rfl

/-- Claim C8: with the class present and no cache entry yet for the
capability (the state right after any axiom installation or class
build), two successive getAxiomsByClass calls return the same array
reference and leave the state of the second call identical to the
first's, and the array stored under that reference holds exactly the
axioms of the full inherited axiom map that satisfy the capability's
isInstance predicate. -/
theorem getAxmsByClass_pointer_stable (h : ClassHeap) (fuel : Nat) (cid capId : String)
    (isInst : Axm → Bool) (c : ClassSt)
    (hc : alGet h.classes cid = some c)
    (hmiss : alGet c.axmCache capId = none)
    (hwf : ∀ p ∈ h.arrays, p.1 < h.fresh) :
    ∃ r h1,
      getAxmsByClass h fuel cid capId isInst = some (r, h1)
      ∧ getAxmsByClass h1 fuel cid capId isInst = some (r, h1)
      ∧ alGet h1.arrays r = some (((fullEntriesF h fuel cid).map Prod.snd).filter isInst) := by
  have h1eq : getAxmsByClass h fuel cid capId isInst = some (h.fresh,
      { classes := alSet h.classes cid ({ c with axmCache := alSet c.axmCache capId h.fresh }),
        arrays := h.arrays ++ [(h.fresh, ((fullEntriesF h fuel cid).map Prod.snd).filter isInst)],
        fresh := h.fresh + 1 }) := by
    simp only [getAxmsByClass, hc, hmiss]
  refine ⟨h.fresh, _, h1eq, ?_, ?_⟩
  · simp only [getAxmsByClass, alGet_alSet_self]
  · show alGet (h.arrays ++ [(h.fresh, _)]) h.fresh = _
    rw [alGet_append_right _ _ _ (alGet_none_of_lt _ _ hwf)]
    simp [alGet, List.find?_cons]

/-- Claim C8 witness: the theorem applied to a one-class world with one
method axiom and one property axiom, filtering by a predicate that
keeps only the property axiom. -/
theorem getAxmsByClass_pointer_stable_w :
    ∃ r h1,
      getAxmsByClass
          { classes := [("A", { super := none,
                                ownAxms := [("p", ⟨"p", false, true⟩), ("m", ⟨"m", true, false⟩)],
                                axmCache := [], isSubClassCache := [] })],
            arrays := [], fresh := 0 }
          2 "A" "Property" (fun a => a.hasInstallInProto) = some (r, h1)
      ∧ getAxmsByClass h1 2 "A" "Property" (fun a => a.hasInstallInProto) = some (r, h1)
      ∧ alGet h1.arrays r =
          some (((fullEntriesF
              { classes := [("A", { super := none,
                                    ownAxms := [("p", ⟨"p", false, true⟩), ("m", ⟨"m", true, false⟩)],
                                    axmCache := [], isSubClassCache := [] })],
                arrays := [], fresh := 0 } 2 "A").map Prod.snd).filter
            (fun a => a.hasInstallInProto)) :=
  getAxmsByClass_pointer_stable _ 2 "A" "Property" _ _ rfl rfl (by simp)

/-- Lawful BEq tests are symmetric. -/
theorem beqComm {κ : Type} [BEq κ] [LawfulBEq κ] (a b : κ) : (a == b) = (b == a) := by
  cases hab : a == b with
  | true => rw [eq_of_beq hab]; simp
  | false =>
    cases hba : b == a with
    | true => rw [eq_of_beq hba] at hab; simp at hab
    | false => rfl

/-- A write to a present key keeps the list length. -/
theorem alSet_length_of_has {κ β : Type} [BEq κ] (l : List (κ × β)) (k : κ) (v : β)
    (h : alHas l k = true) : (alSet l k v).length = l.length := by
  simp [alSet, h]

/-! ## Claim theorems: the context registry -/

/-- cacheGet is a first-match search over the own-bindings lists of the
cache chain, nearest cache first. -/
theorem cacheGet_eq_chain (h : CacheHeap) (fuel : Nat) (ref : Nat) (id : String) :
    cacheGet h ref id fuel = alGet (chainOwns h fuel ref).flatten id := by
  induction fuel generalizing ref with
  | zero => rfl
  | succ fuel ih =>
    simp only [cacheGet, chainOwns]
    cases hco : alGet h.caches ref with
    | none => rfl
    | some co =>
      cases hown : alGet co.own id with
      | some c =>
        simp only [hown, List.flatten_cons]
        exact (alGet_append_left _ _ _ _ hown).symm
      | none =>
        simp only [hown]
        cases hp : co.parent with
        | none =>
          simp only [hp, List.flatten_cons, List.flatten_nil]
          rw [alGet_append_right _ _ _ hown]
          rfl
        | some p =>
          simp only [hp, List.flatten_cons]
          rw [alGet_append_right _ _ _ hown]
          exact ih p

/-- Claim C7: lookup(id, suppress) resolves through the context's own
cache first and then the nearest ancestor holding the id (the
first-match search over the chain's own-binding lists); with suppress
set a missing id yields the empty result, and without it the lookup
fails with UnresolvedReference; a found binding is returned either
way. -/
theorem ctxLookup_chain (h : CacheHeap) (ctx : CtxObj) (id : String) :
    ctxLookup h ctx id true
        = Except.ok (alGet (chainOwns h h.caches.length ctx.cacheRef).flatten id)
    ∧ (alGet (chainOwns h h.caches.length ctx.cacheRef).flatten id = none →
        ctxLookup h ctx id false = Except.error CtxErr.UnresolvedReference)
    ∧ (∀ cl, alGet (chainOwns h h.caches.length ctx.cacheRef).flatten id = some cl →
        ctxLookup h ctx id false = Except.ok (some cl)) := by
  have e := cacheGet_eq_chain h h.caches.length ctx.cacheRef id
  refine ⟨?_, ?_, ?_⟩
  · unfold ctxLookup
    rw [e]
    cases halg : alGet (chainOwns h h.caches.length ctx.cacheRef).flatten id <;> rfl
  · intro hnone
    unfold ctxLookup
    rw [e, hnone]
    rfl
  · intro cl hcl
    unfold ctxLookup
    rw [e, hcl]

/-- Claim C7 witness: on heapC7's sub-context, an id bound only in the
root is found through ancestor delegation, and an unbound id gives the
empty result with suppression and UnresolvedReference without. -/
theorem ctxLookup_chain_w :
    ctxLookup heapC7 subC7 "x.A" false = Except.ok (some ⟨"x.A", "x", "A"⟩)
    ∧ ctxLookup heapC7 subC7 "x.B" true = Except.ok none
    ∧ ctxLookup heapC7 subC7 "x.B" false = Except.error CtxErr.UnresolvedReference :=
  ⟨(ctxLookup_chain heapC7 subC7 "x.A").2.2 ⟨"x.A", "x", "A"⟩ rfl,
   (ctxLookup_chain heapC7 subC7 "x.B").1,
   (ctxLookup_chain heapC7 subC7 "x.B").2.1 rfl⟩

/-- Claim C9: foam.lookup declares only the id parameter and forwards
to the root context's lookup without the suppression flag, so for an
unregistered id foam.lookup(id, true) fails with UnresolvedReference
exactly like foam.lookup(id), while calling the root context's lookup
directly with suppression returns the empty result; consequently the
bootstrap installModel property-type resolution, which calls
foam.lookup(a.class, true) expecting suppression, errors on an
unregistered type id instead of falling back to Property. -/
theorem foamLookup_drops_suppression (h : CacheHeap) (id : String) (d : Cls)
    (hr : cacheGet h rootCtx.cacheRef id h.caches.length = none) :
    foamLookup h id true = Except.error CtxErr.UnresolvedReference
    ∧ foamLookup h id false = Except.error CtxErr.UnresolvedReference
    ∧ ctxLookup h rootCtx id true = Except.ok none
    ∧ resolvePropertyType h id d = Except.error CtxErr.UnresolvedReference := by
  have l1 : ctxLookup h rootCtx id false = Except.error CtxErr.UnresolvedReference := by
    unfold ctxLookup
    rw [hr]
    rfl
  refine ⟨l1, l1, ?_, ?_⟩
  · unfold ctxLookup
    rw [hr]
    rfl
  · show (match foamLookup h id true with
      | Except.error e => Except.error e
      | Except.ok (some cl) => Except.ok cl
      | Except.ok none => Except.ok d) = Except.error CtxErr.UnresolvedReference
    show (match ctxLookup h rootCtx id false with
      | Except.error e => Except.error e
      | Except.ok (some cl) => Except.ok cl
      | Except.ok none => Except.ok d) = Except.error CtxErr.UnresolvedReference
    rw [l1]

/-- Claim C9 witness: the theorem applied to the startup heap and an
unregistered id. -/
theorem foamLookup_drops_suppression_w :
    foamLookup rootHeap "x.Y" true = Except.error CtxErr.UnresolvedReference
    ∧ foamLookup rootHeap "x.Y" false = Except.error CtxErr.UnresolvedReference
    ∧ ctxLookup rootHeap rootCtx "x.Y" true = Except.ok none
    ∧ resolvePropertyType rootHeap "x.Y" ⟨"foam.core.Property", "foam.core", "Property"⟩
        = Except.error CtxErr.UnresolvedReference :=
  foamLookup_drops_suppression rootHeap "x.Y" ⟨"foam.core.Property", "foam.core", "Property"⟩ rfl

/-- Claim C6 (amended): register(cls) inserts into the current
context's own cache only — every other cache object, in particular any
ancestor's, is left unchanged — and, when cls.package is the core
package, additionally inserts under cls.name; it fails with
DuplicateRegistration exactly when cls.id is already an own key, or
when cls.package is the core package and cls.name is already an own key
(or collides with the just-inserted cls.id); bindings present only in
ancestor caches never cause the failure, since only the own bindings
are consulted. -/
theorem register_duplicate_iff (h : CacheHeap) (ctx : CtxObj) (cls : Cls)
    (co : CacheObj) (hco : alGet h.caches ctx.cacheRef = some co)
    (hfr : co.frozen = false) :
    ((register h ctx cls).2 = some CtxErr.DuplicateRegistration ↔
       alHas co.own cls.id = true
       ∨ ((cls.pkg == "foam.core") = true
          ∧ (alHas co.own cls.name = true ∨ (cls.name == cls.id) = true)))
    ∧ ((register h ctx cls).2 = none →
        alGet (register h ctx cls).1.caches ctx.cacheRef
          = some ({ co with own := (co.own ++ [(cls.id, cls)])
              ++ (if (cls.pkg == "foam.core") = true then [(cls.name, cls)] else []) }))
    ∧ (∀ r, (r == ctx.cacheRef) = false →
        alGet (register h ctx cls).1.caches r = alGet h.caches r) := by
  by_cases hid : alHas co.own cls.id = true
  · have hreg : register h ctx cls = (h, some CtxErr.DuplicateRegistration) := by
      simp only [register, hco, doRegister, hid, if_true]
    rw [hreg]
    refine ⟨?_, ?_, ?_⟩
    · simp [hid]
    · intro hcontra
      simp at hcontra
    · intro r hr
      rfl
  · have hid' : alHas co.own cls.id = false := by simpa using hid
    by_cases hfc : (cls.pkg == "foam.core") = true
    · have hnmsplit : alHas (co.own ++ [(cls.id, cls)]) cls.name
          = (alHas co.own cls.name || (cls.id == cls.name)) := by
        simp [alHas, List.any_append]
      by_cases hnm : alHas (co.own ++ [(cls.id, cls)]) cls.name = true
      · have hreg : register h ctx cls
            = (⟨alSet h.caches ctx.cacheRef ({ co with own := co.own ++ [(cls.id, cls)] }),
                h.fresh⟩,
               some CtxErr.DuplicateRegistration) := by
          simp only [register, hco, doRegister, hid', hfr, hfc, hnm, Bool.false_eq_true,
            if_false, if_true]
        rw [hreg]
        refine ⟨?_, ?_, ?_⟩
        · simp only [true_iff]
          right
          refine ⟨hfc, ?_⟩
          rw [hnmsplit] at hnm
          rcases Bool.or_eq_true_iff.mp hnm with h1 | h1
          · exact Or.inl h1
          · exact Or.inr (by rw [beqComm]; exact h1)
        · intro hcontra
          simp at hcontra
        · intro r hr
          exact alGet_alSet_ne _ _ _ _ hr
      · have hnm' : alHas (co.own ++ [(cls.id, cls)]) cls.name = false := by simpa using hnm
        have hreg : register h ctx cls
            = (⟨alSet h.caches ctx.cacheRef
                  ({ co with own := (co.own ++ [(cls.id, cls)]) ++ [(cls.name, cls)] }),
                h.fresh⟩,
               none) := by
          simp only [register, hco, doRegister, hid', hfr, hnm', hfc, Bool.false_eq_true,
            if_false, if_true]
        rw [hreg]
        refine ⟨?_, ?_, ?_⟩
        · simp only [reduceCtorEq, false_iff]
          rw [hnmsplit] at hnm'
          rcases Bool.or_eq_false_iff.mp hnm' with ⟨h1, h2⟩
          rintro (hcon | ⟨_, hcon | hcon⟩)
          · rw [hid'] at hcon
            exact Bool.false_ne_true hcon
          · rw [h1] at hcon
            exact Bool.false_ne_true hcon
          · rw [beqComm, h2] at hcon
            exact Bool.false_ne_true hcon
        · intro _
          rw [if_pos hfc]
          exact alGet_alSet_self _ _ _
        · intro r hr
          exact alGet_alSet_ne _ _ _ _ hr
    · have hfc' : (cls.pkg == "foam.core") = false := by simpa using hfc
      have hreg : register h ctx cls
          = (⟨alSet h.caches ctx.cacheRef ({ co with own := co.own ++ [(cls.id, cls)] }),
              h.fresh⟩,
             none) := by
        simp only [register, hco, doRegister, hid', hfr, hfc', Bool.false_eq_true,
          if_false]
      rw [hreg]
      refine ⟨?_, ?_, ?_⟩
      · simp only [reduceCtorEq, false_iff]
        rintro (hcon | ⟨hcon, _⟩)
        · rw [hid'] at hcon
          exact Bool.false_ne_true hcon
        · rw [hfc'] at hcon
          exact Bool.false_ne_true hcon
      · intro _
        rw [if_neg (by simp [hfc'])]
        rw [List.append_nil]
        exact alGet_alSet_self _ _ _
      · intro r hr
        exact alGet_alSet_ne _ _ _ _ hr

/-- Claim C6 counterexample: in heapC6 the id foam.core.Y is not a key
of the root context's own cache, yet registering a second core-package
class with that fresh id and the already-taken short name X fails with
DuplicateRegistration — refuting the claim that registration fails
exactly when cls.id is already a key of the context's own cache. -/
theorem register_short_name_collision_cex :
    ((alGet heapC6.caches rootCtx.cacheRef).map
        (fun co => alHas co.own "foam.core.Y")) = some false
    ∧ (register heapC6 rootCtx ⟨"foam.core.Y", "foam.core", "X"⟩).2
        = some CtxErr.DuplicateRegistration :=
  ⟨rfl, rfl⟩

/-- Claim C6 witness: the amended theorem applied to heapC6 and the
colliding core-package class; the failure condition evaluates to true
through the short-name disjunct. -/
theorem register_duplicate_iff_w :
    ((register heapC6 rootCtx ⟨"foam.core.Y", "foam.core", "X"⟩).2
        = some CtxErr.DuplicateRegistration ↔
      alHas ([("foam.core.X", ⟨"foam.core.X", "foam.core", "X"⟩),
              ("X", ⟨"foam.core.X", "foam.core", "X"⟩)] : List (String × Cls)) "foam.core.Y" = true
      ∨ (("foam.core" == "foam.core") = true
         ∧ (alHas ([("foam.core.X", ⟨"foam.core.X", "foam.core", "X"⟩),
                    ("X", ⟨"foam.core.X", "foam.core", "X"⟩)] : List (String × Cls)) "X" = true
            ∨ ("X" == "foam.core.Y") = true)))
    ∧ (((register heapC6 rootCtx ⟨"foam.core.Y", "foam.core", "X"⟩).2 = none) →
        alGet (register heapC6 rootCtx ⟨"foam.core.Y", "foam.core", "X"⟩).1.caches
            rootCtx.cacheRef
          = some (⟨([("foam.core.X", ⟨"foam.core.X", "foam.core", "X"⟩),
                     ("X", ⟨"foam.core.X", "foam.core", "X"⟩)]
                ++ [("foam.core.Y", ⟨"foam.core.Y", "foam.core", "X"⟩)])
              ++ (if (("foam.core" : String) == "foam.core") = true
                  then [("X", ⟨"foam.core.Y", "foam.core", "X"⟩)] else []),
              none, false⟩))
    ∧ (∀ r, (r == rootCtx.cacheRef) = false →
        alGet (register heapC6 rootCtx ⟨"foam.core.Y", "foam.core", "X"⟩).1.caches r
          = alGet heapC6.caches r) :=
  register_duplicate_iff heapC6 rootCtx ⟨"foam.core.Y", "foam.core", "X"⟩ _ rfl rfl

/-- A found key is a held key. -/
theorem alHas_of_alGet {κ β : Type} [BEq κ] (l : List (κ × β)) (k : κ) (v : β)
    (h : alGet l k = some v) : alHas l k = true := by
  induction l with
  | nil => simp [alGet] at h
  | cons p l ih =>
    cases hp : p.1 == k with
    | true => simp [alHas, hp]
    | false =>
      have h2 : alGet l k = some v := by simpa [alGet, List.find?_cons, hp] using h
      simpa [alHas, hp] using ih h2

/-- Claim C10: the root context and every context returned by
createSubContext carry the frozen mark from Object.freeze, while the
cache object stored in __cache__ is created unfrozen (the freeze is
shallow) — so register, which only writes to the cache object, still
succeeds on a frozen context and the registered class is found by a
subsequent lookup in that context. -/
theorem context_frozen_register_succeeds :
    rootCtx.frozen = true
    ∧ ((alGet rootHeap.caches rootCtx.cacheRef).map CacheObj.frozen = some false)
    ∧ (∀ (h : CacheHeap) (ctx : CtxObj) (args : List (String × String)) (nm : Option String),
        ((createSubContext h ctx args nm).2).frozen = true
        ∧ ((∀ p ∈ h.caches, p.1 < h.fresh) →
            alGet (createSubContext h ctx args nm).1.caches
                ((createSubContext h ctx args nm).2).cacheRef
              = some ⟨[], some ctx.cacheRef, false⟩))
    ∧ (∀ (h : CacheHeap) (ctx : CtxObj) (args : List (String × String)) (nm : Option String)
        (cls : Cls), (∀ p ∈ h.caches, p.1 < h.fresh) →
        ((cls.pkg == "foam.core") = false ∨ (cls.name == cls.id) = false) →
        ∃ h2, register (createSubContext h ctx args nm).1 (createSubContext h ctx args nm).2 cls
            = (h2, none)
          ∧ ctxLookup h2 (createSubContext h ctx args nm).2 cls.id false
              = Except.ok (some cls)) := by
  refine ⟨rfl, rfl, ?_, ?_⟩
  · intro h ctx args nm
    refine ⟨rfl, ?_⟩
    intro hwf
    show alGet (h.caches ++ [(h.fresh, _)]) h.fresh = _
    rw [alGet_append_right _ _ _ (alGet_none_of_lt _ _ hwf)]
    simp [alGet, List.find?_cons]
  · intro h ctx args nm cls hwf hside
    have halG : alGet (h.caches ++ [(h.fresh, (⟨[], some ctx.cacheRef, false⟩ : CacheObj))])
        h.fresh = some ⟨[], some ctx.cacheRef, false⟩ := by
      rw [alGet_append_right _ _ _ (alGet_none_of_lt _ _ hwf)]
      simp [alGet, List.find?_cons]
    have hhas : alHas (h.caches ++ [(h.fresh, (⟨[], some ctx.cacheRef, false⟩ : CacheObj))])
        h.fresh = true := alHas_of_alGet _ _ _ halG
    by_cases hfc : (cls.pkg == "foam.core") = true
    · have hnm : (cls.name == cls.id) = false := by
        rcases hside with h1 | h1
        · rw [hfc] at h1
          simp at h1
        · exact h1
      have hfcb : (cls.id == cls.name) = false := by
        rw [beqComm]
        exact hnm
      refine ⟨⟨alSet (h.caches ++ [(h.fresh, ⟨[], some ctx.cacheRef, false⟩)]) h.fresh
          ⟨[(cls.id, cls), (cls.name, cls)], some ctx.cacheRef, false⟩, h.fresh + 1⟩, ?_, ?_⟩
      · simp only [register, createSubContext, halG, doRegister, hfc, hfcb, alHas,
          List.any_nil, List.any_cons, Bool.false_eq_true, Bool.or_false, Bool.false_or,
          if_false, if_true, List.nil_append, List.cons_append]
      · have hlen : (alSet (h.caches ++ [(h.fresh, (⟨[], some ctx.cacheRef, false⟩ : CacheObj))])
            h.fresh
            (⟨[(cls.id, cls), (cls.name, cls)], some ctx.cacheRef, false⟩ : CacheObj)).length
            = h.caches.length + 1 := by
          rw [alSet_length_of_has _ _ _ hhas]
          simp
        unfold ctxLookup
        simp only [createSubContext]
        rw [hlen]
        simp only [cacheGet, alGet_alSet_self]
        simp [alGet, List.find?_cons]
    · have hfc' : (cls.pkg == "foam.core") = false := by simpa using hfc
      refine ⟨⟨alSet (h.caches ++ [(h.fresh, ⟨[], some ctx.cacheRef, false⟩)]) h.fresh
          ⟨[(cls.id, cls)], some ctx.cacheRef, false⟩, h.fresh + 1⟩, ?_, ?_⟩
      · simp only [register, createSubContext, halG, doRegister, hfc', alHas,
          List.any_nil, Bool.false_eq_true, if_false, List.nil_append]
      · have hlen : (alSet (h.caches ++ [(h.fresh, (⟨[], some ctx.cacheRef, false⟩ : CacheObj))])
            h.fresh (⟨[(cls.id, cls)], some ctx.cacheRef, false⟩ : CacheObj)).length
            = h.caches.length + 1 := by
          rw [alSet_length_of_has _ _ _ hhas]
          simp
        unfold ctxLookup
        simp only [createSubContext]
        rw [hlen]
        simp only [cacheGet, alGet_alSet_self]
        simp [alGet, List.find?_cons]

/-- Claim C10 witness: starting from the startup heap, a sub-context of
the root is frozen on creation, its cache is not, and registering a
class in the frozen sub-context succeeds and is visible to lookup. -/
theorem context_frozen_register_succeeds_w :
    (((createSubContext rootHeap rootCtx [] none).2).frozen = true
      ∧ alGet (createSubContext rootHeap rootCtx [] none).1.caches
            ((createSubContext rootHeap rootCtx [] none).2).cacheRef
          = some ⟨[], some rootCtx.cacheRef, false⟩)
    ∧ (∃ h2, register (createSubContext rootHeap rootCtx [] none).1
            (createSubContext rootHeap rootCtx [] none).2 ⟨"a.B", "a", "B"⟩
          = (h2, none)
        ∧ ctxLookup h2 (createSubContext rootHeap rootCtx [] none).2 "a.B" false
            = Except.ok (some ⟨"a.B", "a", "B"⟩)) :=
  ⟨⟨(context_frozen_register_succeeds.2.2.1 rootHeap rootCtx [] none).1,
    (context_frozen_register_succeeds.2.2.1 rootHeap rootCtx [] none).2 (by
      intro p hp
      simp only [rootHeap, List.mem_singleton] at hp
      subst hp
      decide)⟩,
   context_frozen_register_succeeds.2.2.2 rootHeap rootCtx [] none ⟨"a.B", "a", "B"⟩ (by
      intro p hp
      simp only [rootHeap, List.mem_singleton] at hp
      subst hp
      decide) (Or.inl rfl)⟩

/-! ## Claim theorems: Slot.relateTo -/

/-- Claim C4: with expectUnstable set, every propagation listener runs
with the feedback flag engaged, so nested triggers return immediately
and the divergence check (which is guarded by the negation of
expectUnstable) can never fire: the initial propagation and any set on
either slot complete with Except.ok — DivergentRelation is never
raised — and the relation returns to a quiescent state (feedback off,
counter restored). -/
theorem relateTo_expectUnstable_no_divergence {α : Type} [DecidableEq α] (f fp : α → α)
    (st : RelSt α) (v w : α) (m : Nat) (hfb : st.feedback = false) :
    relateToInit f fp true (m + 4) st = some (Except.ok ⟨st.a, f st.a, false, st.counter⟩)
    ∧ relSetA f fp true (m + 4) st v
        = some (Except.ok (if v = st.a then st else ⟨v, f v, false, st.counter⟩))
    ∧ relSetB f fp true (m + 4) st w
        = some (Except.ok (if w = st.b then st else ⟨fp w, w, false, st.counter⟩)) := by
  obtain ⟨a, b, fb, cnt⟩ := st
  simp only at hfb
  subst hfb
  refine ⟨?_, ?_, ?_⟩
  · by_cases hb : f a = b
    · simp [relateToInit, relStep, hb]
    · simp [relateToInit, relStep, hb]
  · by_cases hv : v = a
    · simp [relSetA, relStep, hv]
    · by_cases hb : f v = b
      · simp [relSetA, relStep, hv, hb]
      · simp [relSetA, relStep, hv, hb]
  · by_cases hw : w = b
    · simp [relSetB, relStep, hw]
    · by_cases ha : fp w = a
      · simp [relSetB, relStep, hw, ha]
      · simp [relSetB, relStep, hw, ha]

/-- Claim C4 witness: the theorem applied to a concrete unstable
relation over the integers. -/
theorem relateTo_expectUnstable_no_divergence_w :
    relateToInit (fun x : Int => x + 1) (fun y => y + 1) true 20 ⟨0, 1, false, 0⟩
        = some (Except.ok ⟨0, 1, false, 0⟩)
    ∧ relSetA (fun x : Int => x + 1) (fun y => y + 1) true 20 ⟨0, 1, false, 0⟩ 7
        = some (Except.ok (if (7 : Int) = 0 then ⟨0, 1, false, 0⟩ else ⟨7, 8, false, 0⟩))
    ∧ relSetB (fun x : Int => x + 1) (fun y => y + 1) true 20 ⟨0, 1, false, 0⟩ 9
        = some (Except.ok (if (9 : Int) = 1 then ⟨0, 1, false, 0⟩ else ⟨10, 9, false, 0⟩)) :=
  relateTo_expectUnstable_no_divergence (fun x : Int => x + 1) (fun y => y + 1)
    ⟨0, 1, false, 0⟩ 7 9 16 rfl

/-- Without expectUnstable, a listener entered with the counter above 5
throws DivergentRelation at once. -/
theorem relStep_fire1_diverges {α : Type} [DecidableEq α] (f fp : α → α) (m : Nat)
    (st : RelSt α) (hfb : st.feedback = false) (hc : st.counter > 5) :
    relStep f fp false (m + 1) RelMode.fire1 st
      = some (Except.error RelErr.DivergentRelation) := by
  obtain ⟨a, b, fb, cnt⟩ := st
  simp only at hfb hc
  subst hfb
  have hc' : decide (cnt > 5) = true := by simpa using hc
  simp [relStep, hc']

/-- Without expectUnstable, one full feedback round (l1 fires, the
other slot changes, l2 fires, this slot changes) consumes four fuel
steps and re-enters l1 two counter levels deeper; an error of the inner
run propagates out unchanged. -/
theorem relStep_fire1_round {α : Type} [DecidableEq α] (f fp : α → α) (m : Nat)
    (st : RelSt α) (e : RelErr)
    (hfb : st.feedback = false) (hc : st.counter ≤ 5)
    (hab : f st.a ≠ st.b) (hfp : fp (f st.a) ≠ st.a)
    (hrec : relStep f fp false m RelMode.fire1 ⟨fp (f st.a), f st.a, false, st.counter + 2⟩
        = some (Except.error e)) :
    relStep f fp false (m + 4) RelMode.fire1 st = some (Except.error e) := by
  obtain ⟨a, b, fb, cnt⟩ := st
  simp only at hfb hc hab hfp hrec
  subst hfb
  have hc' : decide (cnt > 5) = false := by simp; omega
  simp [relStep, hab, hfp, hc', hrec]

/-- When the propagated values never stabilize (fPrime after f moves
every point and f is injective), the initial l1 propagation keeps
re-triggering itself and hits the divergence bound: with the feedback
counter starting at cnt and 2k more increments available before the
bound, fuel 4k+1 suffices to reach the throw. -/
theorem relStep_fire1_diverges_chain {α : Type} [DecidableEq α] (f fp : α → α)
    (H1 : ∀ x, fp (f x) ≠ x) (H2 : ∀ x y, f x = f y → x = y) :
    ∀ (k : Nat) (a b : α) (cnt : Nat), f a ≠ b → 6 ≤ cnt + 2 * k →
      relStep f fp false (4 * k + 1) RelMode.fire1 ⟨a, b, false, cnt⟩
        = some (Except.error RelErr.DivergentRelation) := by
  intro k
  induction k with
  | zero =>
    intro a b cnt hab hcnt
    exact relStep_fire1_diverges f fp _ _ rfl (by show cnt > 5; omega)
  | succ k ih =>
    intro a b cnt hab hcnt
    by_cases hbig : cnt > 5
    · have : (4 * (k + 1) + 1) = (4 * k + 4) + 1 := by ring
      rw [this]
      exact relStep_fire1_diverges f fp _ _ rfl (by show cnt > 5; omega)
    · have hle : cnt ≤ 5 := by omega
      have hab' : f (fp (f a)) ≠ f a := by
        intro he
        exact H1 a (H2 _ _ he)
      have : (4 * (k + 1) + 1) = (4 * k + 1) + 4 := by ring
      rw [this]
      exact relStep_fire1_round f fp _ _ _ rfl hle hab (H1 a)
        (ih (fp (f a)) (f a) (cnt + 2) hab' (by omega))

/-- Claim C3 (amended): relateTo(other, f, fPrime, false) fails fatally
with DivergentRelation once the feedback round-trip depth exceeds 5 —
within 6 propagation rounds — whenever the propagated values never
stabilize (fPrime after f moves every value, f is injective, and the
initial propagation fires); and when fPrime and f invert each other on
the values involved, the initial propagation and every subsequent set
on either side update the other side and complete without any
failure. -/
theorem relateTo_divergence_amended {α : Type} [DecidableEq α] (f fp : α → α) (a0 b0 : α) :
    ((∀ x, fp (f x) ≠ x) → (∀ x y, f x = f y → x = y) → f a0 ≠ b0 →
      relateToInit f fp false 13 ⟨a0, b0, false, 0⟩
        = some (Except.error RelErr.DivergentRelation))
    ∧ ((∀ x, fp (f x) = x) → (∀ y, f (fp y) = y) →
      relateToInit f fp false 13 ⟨a0, b0, false, 0⟩ = some (Except.ok ⟨a0, f a0, false, 0⟩)
      ∧ (∀ v, relSetA f fp false 13 ⟨a0, f a0, false, 0⟩ v
          = some (Except.ok ⟨v, f v, false, 0⟩))
      ∧ (∀ w, relSetB f fp false 13 ⟨a0, f a0, false, 0⟩ w
          = some (Except.ok ⟨fp w, w, false, 0⟩))) := by
  constructor
  · intro H1 H2 h0
    have h13 : (13 : Nat) = 4 * 3 + 1 := by norm_num
    unfold relateToInit
    rw [h13]
    exact relStep_fire1_diverges_chain f fp H1 H2 3 a0 b0 0 h0 (by omega)
  · intro H H'
    refine ⟨?_, ?_, ?_⟩
    · by_cases hb : f a0 = b0
      · simp [relateToInit, relStep, hb, H]
      · simp [relateToInit, relStep, hb, H]
    · intro v
      by_cases hv : v = a0
      · simp [relSetA, relStep, hv, H]
      · by_cases hb : f v = f a0
        · simp [relSetA, relStep, hv, hb, H]
        · simp [relSetA, relStep, hv, hb, H]
    · intro w
      by_cases hw : w = f a0
      · simp [relSetB, relStep, hw, H]
      · by_cases ha : fp w = a0
        · simp [relSetB, relStep, hw, ha, H, H']
        · simp [relSetB, relStep, hw, ha, H, H']

/-- Claim C3 counterexample: the transforms f(x)=0 and fPrime(y)=0 do
not invert each other on the propagated values (fPrime(f(1)) = 0 ≠ 1),
yet relating the slots a=1, b=2 converges to 0 on both sides without
ever raising DivergentRelation, and a later set still completes
normally — refuting the claim that every non-inverting pair fails
within 6 propagation rounds. -/
theorem relateTo_const_converges_cex :
    ((fun _ : Int => (0 : Int)) ((fun _ : Int => (0 : Int)) 1) ≠ 1)
    ∧ relateToInit (fun _ : Int => (0 : Int)) (fun _ => 0) false 20 ⟨1, 2, false, 0⟩
        = some (Except.ok ⟨0, 0, false, 0⟩)
    ∧ relSetA (fun _ : Int => (0 : Int)) (fun _ => 0) false 20 ⟨0, 0, false, 0⟩ 5
        = some (Except.ok ⟨5, 0, false, 0⟩) :=
  ⟨by decide, rfl, rfl⟩

/-- Claim C3 witness: the amended theorem applied to the diverging pair
f(x)=x+1, fPrime(y)=y+1 and to the inverse pair f(x)=x+1,
fPrime(y)=y-1 over the integers. -/
theorem relateTo_divergence_amended_w :
    relateToInit (fun x : Int => x + 1) (fun y => y + 1) false 13 ⟨0, 0, false, 0⟩
        = some (Except.error RelErr.DivergentRelation)
    ∧ relateToInit (fun x : Int => x + 1) (fun y => y - 1) false 13 ⟨0, 5, false, 0⟩
        = some (Except.ok ⟨0, 1, false, 0⟩)
    ∧ relSetA (fun x : Int => x + 1) (fun y => y - 1) false 13 ⟨0, 1, false, 0⟩ 7
        = some (Except.ok ⟨7, 8, false, 0⟩)
    ∧ relSetB (fun x : Int => x + 1) (fun y => y - 1) false 13 ⟨0, 1, false, 0⟩ 9
        = some (Except.ok ⟨8, 9, false, 0⟩) :=
  ⟨(relateTo_divergence_amended (fun x : Int => x + 1) (fun y => y + 1) 0 0).1
      (by intro x; omega) (by intro x y hxy; omega) (by omega),
   ((relateTo_divergence_amended (fun x : Int => x + 1) (fun y => y - 1) 0 5).2
      (by intro x; omega) (by intro y; omega)).1,
   (((relateTo_divergence_amended (fun x : Int => x + 1) (fun y => y - 1) 0 5).2
      (by intro x; omega) (by intro y; omega)).2.1 7 : _),
   (((relateTo_divergence_amended (fun x : Int => x + 1) (fun y => y - 1) 0 5).2
      (by intro x; omega) (by intro y; omega)).2.2 9 : _)⟩

/-! ## Claim theorems: Slot.linkFrom -/

/-- Claim C5: linkFrom's initial pass copies the other slot's value
into this one, so with plain setters two differing slots both read the
other's former value afterwards and each later set on either side
propagates to the other; when this slot's setter coerces or rejects the
copied value, both sides converge to the coerced value with exactly one
corrective copy-back onto the other slot (none when the setter accepted
the value verbatim), and the pass terminates — never an unbounded
loop. -/
theorem linkFrom_converges {α : Type} [DecidableEq α] :
    (∀ (a0 b0 : α), a0 ≠ b0 →
      linkFromInit (fun x => x) (fun x => x) 10 ⟨a0, b0, false, false, []⟩
        = some ⟨b0, b0, false, false, [LinkEv.set1 b0]⟩)
    ∧ (∀ (w v : α), v ≠ w →
      linkSet1 (fun x => x) (fun x => x) 10 ⟨w, w, false, false, []⟩ v
        = some ⟨v, v, false, false, [LinkEv.set1 v, LinkEv.set2 v]⟩
      ∧ linkSet2 (fun x => x) (fun x => x) 10 ⟨w, w, false, false, []⟩ v
        = some ⟨v, v, false, false, [LinkEv.set2 v, LinkEv.set1 v]⟩)
    ∧ (∀ (c1 : α → α) (a0 b0 : α), a0 ≠ b0 →
      ∃ st', linkFromInit c1 (fun x => x) 10 ⟨a0, b0, false, false, []⟩ = some st'
        ∧ st'.s1 = c1 b0 ∧ st'.s2 = c1 b0 ∧ st'.fb1 = false ∧ st'.fb2 = false
        ∧ countSet2 st'.trace = (if c1 b0 = b0 then 0 else 1)) := by
  refine ⟨?_, ?_, ?_⟩
  · intro a0 b0 hab
    have hba : b0 ≠ a0 := Ne.symm hab
    simp [linkFromInit, linkStep, hab, hba]
  · intro w v hv
    have hv' : w ≠ v := Ne.symm hv
    constructor
    · simp [linkSet1, linkStep, hv, hv']
    · simp [linkSet2, linkStep, hv, hv']
  · intro c1 a0 b0 hab
    by_cases hcb : c1 b0 = b0
    · refine ⟨⟨b0, b0, false, false, [LinkEv.set1 b0]⟩, ?_, by rw [hcb], by rw [hcb],
        rfl, rfl, by simp [countSet2, hcb]⟩
      have hba : b0 ≠ a0 := Ne.symm hab
      simp [linkFromInit, linkStep, hab, hba, hcb]
    · by_cases hca : c1 b0 = a0
      · refine ⟨⟨a0, a0, false, false, [LinkEv.set1 b0, LinkEv.set2 a0]⟩, ?_, by rw [hca],
          by rw [hca], rfl, rfl, by simp [countSet2, hcb]⟩
        have hba : b0 ≠ a0 := Ne.symm hab
        simp [linkFromInit, linkStep, hab, hba, hca, hcb]
      · refine ⟨⟨c1 b0, c1 b0, false, false, [LinkEv.set1 b0, LinkEv.set2 (c1 b0)]⟩, ?_,
          rfl, rfl, rfl, rfl, by simp [countSet2, hcb]⟩
        have hba : b0 ≠ a0 := Ne.symm hab
        simp [linkFromInit, linkStep, hab, hba, hca, hcb]

/-- Claim C5 witness: the theorem applied over the integers — two plain
slots 1 and 2 converge to 2 after linkFrom, later sets propagate both
ways, and a clamping setter (min x 10) linked from the value 22 yields
10 on both sides with exactly one corrective copy-back. -/
theorem linkFrom_converges_w :
    linkFromInit (fun x : Int => x) (fun x => x) 10 ⟨1, 2, false, false, []⟩
        = some ⟨2, 2, false, false, [LinkEv.set1 2]⟩
    ∧ (linkSet1 (fun x : Int => x) (fun x => x) 10 ⟨2, 2, false, false, []⟩ 5
        = some ⟨5, 5, false, false, [LinkEv.set1 5, LinkEv.set2 5]⟩
      ∧ linkSet2 (fun x : Int => x) (fun x => x) 10 ⟨2, 2, false, false, []⟩ 9
        = some ⟨9, 9, false, false, [LinkEv.set2 9, LinkEv.set1 9]⟩)
    ∧ (∃ st', linkFromInit (fun x : Int => min x 10) (fun x => x) 10
          ⟨1, 22, false, false, []⟩ = some st'
        ∧ st'.s1 = min 22 10 ∧ st'.s2 = min 22 10 ∧ st'.fb1 = false ∧ st'.fb2 = false
        ∧ countSet2 st'.trace = (if min 22 10 = (22 : Int) then 0 else 1)) :=
  ⟨linkFrom_converges.1 1 2 (by decide),
   ⟨(linkFrom_converges.2.1 2 5 (by decide)).1,
    (linkFrom_converges.2.1 2 9 (by decide)).2⟩,
   linkFrom_converges.2.2 (fun x : Int => min x 10) 1 22 (by decide)⟩

/-! ## Claim theorems: pub/sub delivery (spec-modelled) -/

/-- The invoked ids are, in order, a sublist of the node ids at publish
time (each list position is visited at most once, in list order). -/
theorem deliverIds_sublist (cb : Nat → List Nat) :
    ∀ (l : List SubNode) (dead : List Nat),
      (deliverIds cb l dead).Sublist (l.map SubNode.id) := by
  intro l
  induction l with
  | nil => intro dead; simp [deliverIds]
  | cons n rest ih =>
    intro dead
    by_cases hskip : (n.destroyed || decide (n.id ∈ dead)) = true
    · simp only [deliverIds, hskip, if_true, List.map_cons]
      exact (ih dead).cons n.id
    · simp only [deliverIds, hskip, if_false, List.map_cons]
      exact (ih (dead ++ cb n.id)).cons₂ n.id

/-- An id already destroyed is never invoked later in the pass. -/
theorem deliverIds_not_called_of_dead (cb : Nat → List Nat) :
    ∀ (l : List SubNode) (dead : List Nat) (i : Nat),
      i ∈ dead → i ∉ deliverIds cb l dead := by
  intro l
  induction l with
  | nil => intro dead i _; simp [deliverIds]
  | cons n rest ih =>
    intro dead i hi
    by_cases hskip : (n.destroyed || decide (n.id ∈ dead)) = true
    · simp only [deliverIds, hskip, if_true]
      exact ih dead i hi
    · simp only [deliverIds, hskip, if_false]
      intro hmem
      rcases List.mem_cons.mp hmem with he | hmem2
      · subst he
        simp only [Bool.or_eq_true, decide_eq_true_eq, not_or] at hskip
        exact hskip.2 hi
      · exact ih (dead ++ cb n.id) i (List.mem_append_left _ hi) hmem2

/-- A node destroyed before its delivery point is never invoked. -/
theorem deliverIds_not_called_of_destroyed (cb : Nat → List Nat) :
    ∀ (l : List SubNode) (dead : List Nat) (n : SubNode),
      (l.map SubNode.id).Nodup → n ∈ l → n.destroyed = true →
      n.id ∉ deliverIds cb l dead := by
  intro l
  induction l with
  | nil => intro dead n _ hn; simp at hn
  | cons m rest ih =>
    intro dead n hnd hn hdes
    have hndtail : (rest.map SubNode.id).Nodup := by
      simp only [List.map_cons, List.nodup_cons] at hnd
      exact hnd.2
    have hhead : m.id ∉ rest.map SubNode.id := by
      simp only [List.map_cons, List.nodup_cons] at hnd
      exact hnd.1
    rcases List.mem_cons.mp hn with he | htail
    · subst he
      have hskip : (n.destroyed || decide (n.id ∈ dead)) = true := by simp [hdes]
      simp only [deliverIds, hskip, if_true]
      intro hmem
      exact hhead ((deliverIds_sublist cb rest dead).subset hmem)
    · have hne : n.id ≠ m.id := by
        intro he
        exact hhead (he ▸ List.mem_map_of_mem SubNode.id htail)
      by_cases hskip : (m.destroyed || decide (m.id ∈ dead)) = true
      · simp only [deliverIds, hskip, if_true]
        exact ih dead n hndtail htail hdes
      · simp only [deliverIds, hskip, if_false]
        intro hmem
        rcases List.mem_cons.mp hmem with he | hmem2
        · exact hne he
        · exact ih (dead ++ cb m.id) n hndtail htail hdes hmem2

/-- A node live at publish time whose id is destroyed by no callback is
invoked. -/
theorem deliverIds_called_of_live (cb : Nat → List Nat) :
    ∀ (l : List SubNode) (dead : List Nat) (n : SubNode),
      n ∈ l → n.destroyed = false → n.id ∉ dead →
      (∀ m ∈ l, n.id ∉ cb m.id) →
      n.id ∈ deliverIds cb l dead := by
  intro l
  induction l with
  | nil => intro dead n hn; simp at hn
  | cons m rest ih =>
    intro dead n hn hlive hnd hcb
    rcases List.mem_cons.mp hn with he | htail
    · subst he
      have hskip : (n.destroyed || decide (n.id ∈ dead)) = false := by
        simp [hlive, hnd]
      simp only [deliverIds, hskip, Bool.false_eq_true, if_false]
      exact List.mem_cons_self _ _
    · by_cases hskip : (m.destroyed || decide (m.id ∈ dead)) = true
      · simp only [deliverIds, hskip, if_true]
        exact ih dead n htail hlive hnd (fun q hq => hcb q (List.mem_cons_of_mem m hq))
      · simp only [deliverIds, hskip, if_false]
        have hnd2 : n.id ∉ dead ++ cb m.id := by
          intro hmem
          rcases List.mem_append.mp hmem with h1 | h1
          · exact hnd h1
          · exact hcb m (List.mem_cons_self m rest) h1
        exact List.mem_cons_of_mem _
          (ih (dead ++ cb m.id) n htail hlive hnd2
            (fun q hq => hcb q (List.mem_cons_of_mem m hq)))

/-- When an invoked node's callback destroys a node further down the
list, that node is not invoked in the same pass. -/
theorem deliverIds_cross_destroy (cb : Nat → List Nat) :
    ∀ (l1 : List SubNode) (m : SubNode) (l2r : List SubNode) (dead : List Nat),
      ((l1 ++ m :: l2r).map SubNode.id).Nodup →
      m.id ∈ deliverIds cb (l1 ++ m :: l2r) dead →
      ∀ n ∈ l2r, n.id ∈ cb m.id →
      n.id ∉ deliverIds cb (l1 ++ m :: l2r) dead := by
  intro l1
  induction l1 with
  | nil =>
    intro m l2r dead hnd hm n hn hcb
    simp only [List.nil_append] at hm ⊢
    simp only [List.nil_append, List.map_cons, List.nodup_cons] at hnd
    have hhead : m.id ∉ l2r.map SubNode.id := hnd.1
    by_cases hskip : (m.destroyed || decide (m.id ∈ dead)) = true
    · exfalso
      simp only [deliverIds, hskip, if_true] at hm
      exact hhead ((deliverIds_sublist cb l2r dead).subset hm)
    · simp only [deliverIds, hskip, if_false]
      intro hmem
      rcases List.mem_cons.mp hmem with he | hmem2
      · exact hhead (he ▸ List.mem_map_of_mem SubNode.id hn)
      · exact deliverIds_not_called_of_dead cb l2r (dead ++ cb m.id) n.id
          (List.mem_append_right _ hcb) hmem2
  | cons h t ih =>
    intro m l2r dead hnd hm n hn hcb
    simp only [List.cons_append] at hm ⊢
    simp only [List.cons_append, List.map_cons, List.nodup_cons] at hnd
    have hndtail : ((t ++ m :: l2r).map SubNode.id).Nodup := hnd.2
    have hhead : h.id ∉ (t ++ m :: l2r).map SubNode.id := hnd.1
    by_cases hskip : (h.destroyed || decide (h.id ∈ dead)) = true
    · simp only [deliverIds, hskip, if_true] at hm ⊢
      exact ih m l2r dead hndtail hm n hn hcb
    · simp only [deliverIds, hskip, if_false] at hm ⊢
      have hmne : m.id ≠ h.id := by
        intro he
        apply hhead
        rw [← he]
        exact List.mem_map_of_mem SubNode.id (List.mem_append_right t (List.mem_cons_self m l2r))
      have hm2 : m.id ∈ deliverIds cb (t ++ m :: l2r) (dead ++ cb h.id) := by
        rcases List.mem_cons.mp hm with he | h2
        · exact absurd he hmne
        · exact h2
      have hnne : n.id ≠ h.id := by
        intro he
        apply hhead
        rw [← he]
        exact List.mem_map_of_mem SubNode.id
          (List.mem_append_right t (List.mem_cons_of_mem m hn))
      intro hmem
      rcases List.mem_cons.mp hmem with he | hmem2
      · exact hnne he
      · exact ih m l2r (dead ++ cb h.id) hndtail hm2 n hn hcb hmem2

/-- Destroying a node is idempotent. -/
theorem destroyNode_idem (l : List SubNode) (i : Nat) :
    destroyNode (destroyNode l i) i = destroyNode l i := by
  unfold destroyNode
  rw [List.map_map]
  apply List.map_congr_left
  intro n _
  by_cases h : n.id = i <;> simp [h]

/-- Destroying an id whose nodes are already destroyed changes
nothing. -/
theorem destroyNode_noop (l : List SubNode) (i : Nat)
    (h : ∀ n ∈ l, n.id = i → n.destroyed = true) : destroyNode l i = l := by
  unfold destroyNode
  conv_rhs => rw [← List.map_id l]
  apply List.map_congr_left
  intro n hn
  by_cases hni : n.id = i
  · have := h n hn hni
    cases n
    simp only at this
    simp [hni, this]
  · simp [hni]

/-- The delivery pass decomposes over a split of the subscription
list: the suffix runs with the destroys of the prefix's invoked
callbacks accumulated. -/
theorem deliverIds_append (cb : Nat → List Nat) :
    ∀ (l1 l2 : List SubNode) (dead : List Nat),
      deliverIds cb (l1 ++ l2) dead
        = deliverIds cb l1 dead
          ++ deliverIds cb l2 (dead ++ ((deliverIds cb l1 dead).map cb).flatten) := by
  intro l1
  induction l1 with
  | nil =>
    intro l2 dead
    simp [deliverIds]
  | cons n rest ih =>
    intro l2 dead
    by_cases hskip : (n.destroyed || decide (n.id ∈ dead)) = true
    · simp only [List.cons_append, deliverIds, hskip, if_true, List.append_eq]
      exact ih l2 dead
    · simp only [List.cons_append, deliverIds, hskip, Bool.false_eq_true, if_false,
        List.append_eq]
      rw [ih l2 (dead ++ cb n.id)]
      simp [List.append_assoc]

/-- Claim C2 (spec-modelled pub/sub delivery): with distinct
subscription ids, one publish delivers in list order visiting each
position at most once (the invoked ids are a nodup sublist of the
captured list); a subscription destroyed before publish is never
invoked; a subscription at any position is invoked exactly when it is
still live at its delivery point — not destroyed at publish time and
not destroyed by any callback invoked before its position — so a
callback destroying itself or any later subscription mid-delivery
never prevents its own invocation and never lets a destroyed
subscription be invoked; when an invoked callback destroys a later
node, that node is not invoked; and destroying an already-destroyed
subscription is a no-op. -/
theorem publish_delivery (cb : Nat → List Nat) (l : List SubNode)
    (hno : (l.map SubNode.id).Nodup) :
    (publish cb l).2.Sublist (l.map SubNode.id)
    ∧ (publish cb l).2.Nodup
    ∧ (∀ n ∈ l, n.destroyed = true → n.id ∉ (publish cb l).2)
    ∧ (∀ l1 n l2r, l = l1 ++ n :: l2r →
        (n.id ∈ (publish cb l).2 ↔
          n.destroyed = false ∧ ∀ j ∈ deliverIds cb l1 [], n.id ∉ cb j))
    ∧ (∀ l1 m l2r, l = l1 ++ m :: l2r → m.id ∈ (publish cb l).2 →
        ∀ n ∈ l2r, n.id ∈ cb m.id → n.id ∉ (publish cb l).2)
    ∧ (∀ (l' : List SubNode) (i : Nat),
        destroyNode (destroyNode l' i) i = destroyNode l' i)
    ∧ (∀ (l' : List SubNode) (i : Nat),
        (∀ n ∈ l', n.id = i → n.destroyed = true) → destroyNode l' i = l') := by
  have hpub : (publish cb l).2 = deliverIds cb l [] := rfl
  rw [hpub]
  refine ⟨deliverIds_sublist cb l [], (deliverIds_sublist cb l []).nodup hno,
    ?_, ?_, ?_, destroyNode_idem, destroyNode_noop⟩
  · intro n hn hdes
    exact deliverIds_not_called_of_destroyed cb l [] n hno hn hdes
  · intro l1 n l2r hsplit
    subst hsplit
    have happ := deliverIds_append cb l1 (n :: l2r) ([] : List Nat)
    have hnd' := hno
    rw [List.map_append, List.nodup_append] at hnd'
    have hnl1 : n.id ∉ l1.map SubNode.id := by
      intro hmem
      exact hnd'.2.2 hmem (by simp)
    have hnl2 : n.id ∉ l2r.map SubNode.id := by
      have := hnd'.2.1
      simp only [List.map_cons, List.nodup_cons] at this
      exact this.1
    have hdead : ∀ i : Nat,
        i ∈ ([] : List Nat) ++ ((deliverIds cb l1 []).map cb).flatten ↔
          ∃ j ∈ deliverIds cb l1 [], i ∈ cb j := by
      intro i
      simp [List.mem_flatten]
    rw [happ]
    constructor
    · intro hin
      rcases List.mem_append.mp hin with h1 | h2
      · exact absurd ((deliverIds_sublist cb l1 []).subset h1) hnl1
      · by_cases hskip : (n.destroyed
            || decide (n.id ∈ ([] : List Nat) ++ ((deliverIds cb l1 []).map cb).flatten)) = true
        · exfalso
          simp only [deliverIds, hskip, if_true] at h2
          exact hnl2 ((deliverIds_sublist cb l2r _).subset h2)
        · simp only [Bool.or_eq_true, decide_eq_true_eq, not_or, Bool.not_eq_true] at hskip
          refine ⟨hskip.1, ?_⟩
          intro j hj hcbj
          exact hskip.2 ((hdead n.id).mpr ⟨j, hj, hcbj⟩)
    · rintro ⟨hlive, hnd⟩
      apply List.mem_append_right
      have hskip : (n.destroyed
          || decide (n.id ∈ ([] : List Nat) ++ ((deliverIds cb l1 []).map cb).flatten)) = false := by
        simp only [hlive, Bool.false_or, decide_eq_false_iff_not]
        intro hmem
        rcases (hdead n.id).mp hmem with ⟨j, hj, hcbj⟩
        exact hnd j hj hcbj
      simp only [deliverIds, hskip, Bool.false_eq_true, if_false]
      exact List.mem_cons_self _ _
  · intro l1 m l2r hsplit hm n hn hcb
    subst hsplit
    exact deliverIds_cross_destroy cb l1 m l2r [] hno hm n hn hcb

/-- Claim C2 witness: the theorem applied to the regression scenarios —
two subscribers that each destroy themselves are both invoked exactly
once (delivery is nodup); a subscriber whose callback destroys a later
subscription mid-delivery is invoked while the destroyed one is
skipped and an untouched one still runs; and a subscription destroyed
before publish is never invoked. -/
theorem publish_delivery_w :
    (publish (fun i => [i]) [⟨1, false⟩, ⟨0, false⟩]).2.Nodup
    ∧ (1 : Nat) ∈ (publish (fun i => [i]) [⟨1, false⟩, ⟨0, false⟩]).2
    ∧ (0 : Nat) ∈ (publish (fun i => [i]) [⟨1, false⟩, ⟨0, false⟩]).2
    ∧ (3 : Nat) ∉ (publish (fun i => if i = 5 then [3] else [])
        [⟨5, false⟩, ⟨4, false⟩, ⟨3, false⟩, ⟨2, false⟩, ⟨1, false⟩]).2
    ∧ (4 : Nat) ∈ (publish (fun i => if i = 5 then [3] else [])
        [⟨5, false⟩, ⟨4, false⟩, ⟨3, false⟩, ⟨2, false⟩, ⟨1, false⟩]).2
    ∧ (5 : Nat) ∉ (publish (fun _ => [])
        [⟨5, true⟩, ⟨4, false⟩, ⟨3, true⟩, ⟨2, false⟩, ⟨1, true⟩]).2 :=
  ⟨(publish_delivery (fun i => [i]) [⟨1, false⟩, ⟨0, false⟩] (by decide)).2.1,
   ((publish_delivery (fun i => [i]) [⟨1, false⟩, ⟨0, false⟩] (by decide)).2.2.2.1
      [] ⟨1, false⟩ [⟨0, false⟩] rfl).mpr ⟨rfl, by decide⟩,
   ((publish_delivery (fun i => [i]) [⟨1, false⟩, ⟨0, false⟩] (by decide)).2.2.2.1
      [⟨1, false⟩] ⟨0, false⟩ [] rfl).mpr ⟨rfl, by decide⟩,
   fun h =>
     (((publish_delivery (fun i => if i = 5 then [3] else [])
          [⟨5, false⟩, ⟨4, false⟩, ⟨3, false⟩, ⟨2, false⟩, ⟨1, false⟩] (by decide)).2.2.2.1
        [⟨5, false⟩, ⟨4, false⟩] ⟨3, false⟩ [⟨2, false⟩, ⟨1, false⟩] rfl).mp h).2
       5 (by decide) (by decide),
   ((publish_delivery (fun i => if i = 5 then [3] else [])
        [⟨5, false⟩, ⟨4, false⟩, ⟨3, false⟩, ⟨2, false⟩, ⟨1, false⟩] (by decide)).2.2.2.1
      [⟨5, false⟩] ⟨4, false⟩ [⟨3, false⟩, ⟨2, false⟩, ⟨1, false⟩] rfl).mpr ⟨rfl, by decide⟩,
   (publish_delivery (fun _ => [])
      [⟨5, true⟩, ⟨4, false⟩, ⟨3, true⟩, ⟨2, false⟩, ⟨1, true⟩] (by decide)).2.2.1
     ⟨5, true⟩ (by decide) rfl⟩

end Foam

